import Mathlib

/-! Verification of the document-outline and persona-ranking heuristics.
Python strings are modelled as lists of characters, Python floats as
rationals, and every regular-expression check of the source is compiled by
hand into an executable boolean function on character lists. -/

/-- Characters Python treats as whitespace (str.split, str.strip, regex class backslash-s). -/
def pyIsSpace (c : Char) : Bool :=
  c == ' ' || c == '\t' || c == '\n' || c == '\r' || c == '\x0b' || c == '\x0c'

/-- ASCII digit test, the regex class backslash-d restricted to ASCII input. -/
def isDigitCh (c : Char) : Bool := 48 ≤ c.toNat && c.toNat ≤ 57

/-- ASCII uppercase letter test. -/
def isUpperCh (c : Char) : Bool := 65 ≤ c.toNat && c.toNat ≤ 90

/-- ASCII lowercase letter test. -/
def isLowerCh (c : Char) : Bool := 97 ≤ c.toNat && c.toNat ≤ 122

/-- ASCII letter test, the regex class a-zA-Z. -/
def isAlphaCh (c : Char) : Bool := isUpperCh c || isLowerCh c

/-- ASCII word character, the regex class backslash-w restricted to ASCII input. -/
def isWordCh (c : Char) : Bool := isAlphaCh c || isDigitCh c || c == '_'

/-- ASCII lowering, modelling str.lower on the ASCII inputs the heuristics see. -/
def asciiLower (c : Char) : Char := if isUpperCh c then Char.ofNat (c.toNat + 32) else c

/-- Python str.strip: drop leading and trailing whitespace. -/
def pyStrip (s : List Char) : List Char :=
  ((s.dropWhile pyIsSpace).reverse.dropWhile pyIsSpace).reverse

/-- Helper for str.split: scan the text keeping the current word reversed in
an accumulator, emitting it whenever whitespace or the end is reached. -/
def pySplitAux (acc : List Char) : List Char → List (List Char)
  | [] => if acc.isEmpty then [] else [acc.reverse]
  | c :: rest =>
    if pyIsSpace c then
      (if acc.isEmpty then [] else [acc.reverse]) ++ pySplitAux [] rest
    else pySplitAux (c :: acc) rest

/-- Python str.split with no argument: maximal runs of non-whitespace characters. -/
def pySplit (s : List Char) : List (List Char) := pySplitAux [] s

/-- Number of whitespace-separated words, len of text.split() in the source. -/
def wordCount (s : List Char) : Nat := (pySplit s).length

/-- Python single-space str.join over a list of words. -/
def joinSpace : List (List Char) → List Char
  | [] => []
  | [w] => w
  | w :: ws => w ++ ' ' :: joinSpace ws

/-- One step of re.sub with pattern backslash-s-plus and a one-space replacement:
each whitespace character becomes a space and runs collapse to one. -/
def collapseRuns : List Char → List Char
  | [] => []
  | [c] => if pyIsSpace c then [' '] else [c]
  | c :: d :: rest =>
    if pyIsSpace c && pyIsSpace d then collapseRuns (d :: rest)
    else (if pyIsSpace c then ' ' else c) :: collapseRuns (d :: rest)

/-- Python str.endswith for a single character. -/
def endsWithCh (s : List Char) (c : Char) : Bool :=
  match s.getLast? with
  | some d => d == c
  | none => false

/-- Python str.isupper restricted to ASCII: at least one letter and no lowercase letter. -/
def pyIsUpper (s : List Char) : Bool := s.any isAlphaCh && !(s.any isLowerCh)

/-- Helper for str.istitle: scan remembering whether the previous character was cased. -/
def pyIsTitleAux : Bool → List Char → Bool
  | _, [] => true
  | prevCased, c :: rest =>
    if isUpperCh c then !prevCased && pyIsTitleAux true rest
    else if isLowerCh c then prevCased && pyIsTitleAux true rest
    else pyIsTitleAux false rest

/-- Python str.istitle restricted to ASCII: uppercase letters only after uncased
characters, lowercase letters only after cased ones, at least one letter. -/
def pyIsTitle (s : List Char) : Bool := s.any isAlphaCh && pyIsTitleAux false s

/-- Case-insensitive test that the pattern word begins the text, modelling a
re.IGNORECASE literal-word match anchored at the start. -/
def startsWithCI : List Char → List Char → Bool
  | [], _ => true
  | _ :: _, [] => false
  | a :: p, c :: t => asciiLower c == asciiLower a && startsWithCI p t

/-- Contiguous-substring occurrence test, modelling re.search for a literal. -/
def isSubstringOf (p : List Char) : List Char → Bool
  | [] => p.isEmpty
  | c :: rest => startsWithCI p (c :: rest) || isSubstringOf p rest

/-- True when the list starts with at least one whitespace character. -/
def hasLeadingSpace : List Char → Bool
  | [] => false
  | c :: _ => pyIsSpace c

/-- Greedy backslash-s-plus: require one leading whitespace character, drop the
whole run, and hand the rest to the continuation.  All continuations used
below reject whitespace first characters, so greedy matching is exact. -/
def spacesThen (k : List Char → Bool) (s : List Char) : Bool :=
  hasLeadingSpace s && k (s.dropWhile pyIsSpace)

/-- Greedy backslash-d-plus: require one leading digit, drop the whole digit run,
and hand the rest to the continuation.  The continuations used below never
start with a digit, so greedy matching is exact. -/
def digitsThen (k : List Char → Bool) (s : List Char) : Bool :=
  match s with
  | [] => false
  | c :: _ => isDigitCh c && k (s.dropWhile isDigitCh)

/-- Continuation accepting anything, for patterns that end after the prior atom. -/
def anyRest (_ : List Char) : Bool := true

/-- Continuation requiring an ASCII letter of either case next. -/
def firstIsAlpha : List Char → Bool
  | [] => false
  | c :: _ => isAlphaCh c

/-- Continuation requiring an ASCII uppercase letter next. -/
def firstIsUpper : List Char → Bool
  | [] => false
  | c :: _ => isUpperCh c

/-- Continuation requiring an ASCII digit next. -/
def firstIsDigit : List Char → Bool
  | [] => false
  | c :: _ => isDigitCh c

/-- Optional dot then mandatory whitespace then continuation, the regex tail
dot-question backslash-s-plus.  If the dot is present the whitespace must
follow it, since backtracking to skip the dot would put whitespace matching
on the dot itself and fail. -/
def optDotSpacesThen (k : List Char → Bool) : List Char → Bool
  | '.' :: rest => spacesThen k rest
  | s => spacesThen k s

/-- Regex carets-digits-plus optional-dot whitespace-plus, the single-level numbering
pattern of calculate_heading_score. -/
def matchNumDotSpace (t : List Char) : Bool := digitsThen (optDotSpacesThen anyRest) t

/-- Regex for multi-level numbering: digits, dot, digits, optional dot, whitespace. -/
def matchMultiNum (t : List Char) : Bool :=
  digitsThen (fun r =>
    match r with
    | '.' :: rest => digitsThen (optDotSpacesThen anyRest) rest
    | _ => false) t

/-- Regex prefix digits-plus dot digits-plus, the multi-level numbering override of
determine_heading_level (unanchored at the right). -/
def matchMultiNumStart (t : List Char) : Bool :=
  digitsThen (fun r =>
    match r with
    | '.' :: rest => firstIsDigit rest
    | _ => false) t

/-- Regex uppercase-letter optional-dot whitespace-plus, the lettered-item pattern. -/
def matchLetterDotSpace (t : List Char) : Bool :=
  match t with
  | c :: rest => isUpperCh c && optDotSpacesThen anyRest rest
  | [] => false

/-- Case-insensitive word, whitespace, then a digit: the shared shape of the
Chapter/Section/Part heading patterns. -/
def matchWordNum (w : List Char) (t : List Char) : Bool :=
  startsWithCI w t && spacesThen firstIsDigit (t.drop w.length)

/-- Regex prefix digits-plus dot, the numbered-list disqualifier of the title scorer. -/
def matchNumDot (t : List Char) : Bool :=
  digitsThen (fun r =>
    match r with
    | '.' :: _ => true
    | _ => false) t

/-- One extracted visual line with aggregated font metrics, the dictionaries
built by extract_formatted_text.  The bounding box is never read by any of
the scoring code, so it is omitted from the embedding. -/
structure TextElement where
  text : List Char
  page : Nat
  avg_size : ℚ
  max_size : ℚ
  is_bold : Bool
  is_italic : Bool
deriving DecidableEq

/-- The three adaptive heading-size thresholds. -/
structure SizeThresholds where
  h1 : ℚ
  h2 : ℚ
  h3 : ℚ
deriving DecidableEq

/-- Document-wide statistics consumed by the scorers.  The source also stores
the raw size list and a histogram; downstream code reads only the dominant
size and the thresholds, so only those are kept. -/
structure DocStats where
  dominant_size : ℚ
  size_thresholds : SizeThresholds
deriving DecidableEq

/-- Deduplication keeping the first occurrence of each value, the key order of
a Python Counter built from a list. -/
def firstDedup {α : Type} [DecidableEq α] : List α → List α
  | [] => []
  | a :: l => a :: (firstDedup l).filter (fun b => decide (b ≠ a))

/-- Counter.most_common tie-breaking fold: keep the earlier value unless a
strictly more frequent one appears. -/
def firstMode (sizes : List ℚ) : ℚ :=
  match firstDedup sizes with
  | [] => 12
  | d :: ds => ds.foldl (fun b u => if sizes.count b < sizes.count u then u else b) d

/-- Descending order on rationals, the comparison behind sorted(..., reverse=True). -/
def qGe (a b : ℚ) : Prop := b ≤ a

instance : DecidableRel qGe := fun a b => inferInstanceAs (Decidable (b ≤ a))

instance : IsTotal ℚ qGe := ⟨fun a b => (le_total b a).imp id id⟩

instance : IsTrans ℚ qGe := ⟨fun _ _ _ h h2 => le_trans h2 h⟩

/-- Python max over a list of rationals, with junk value 0 on the empty list
(the source only calls it on non-empty lists). -/
def pyMax (l : List ℚ) : ℚ := l.foldl max (l.headD 0)

/-- Embedding of analyze_document_statistics: dominant size is the most common
max-size, and the thresholds come from the three largest distinct sizes when
they exist, falling back to multiples of the dominant size. -/
def analyze_document_statistics (elems : List TextElement) : DocStats :=
  if elems.isEmpty then ⟨12, ⟨18, 15, 13⟩⟩
  else
    let font_sizes := elems.map (fun e => e.max_size)
    let dominant := firstMode font_sizes
    let unique := List.insertionSort qGe (firstDedup font_sizes)
    if 3 ≤ unique.length then
      ⟨dominant,
        ⟨unique.getD 0 0,
          if 1 < unique.length then unique.getD 1 0 else dominant * 1.3,
          if 2 < unique.length then unique.getD 2 0 else dominant * 1.1⟩⟩
    else
      ⟨dominant,
        ⟨max (dominant * 1.5) (pyMax font_sizes * 0.9), dominant * 1.3, dominant * 1.1⟩⟩

/-- Size sub-score of the title extractor: step function of the ratio of the
element max size to the dominant size. -/
def calculate_size_score (elem : TextElement) (stats : DocStats) : ℚ :=
  let size_ratio := elem.max_size / stats.dominant_size
  if size_ratio ≥ 2.5 then 1
  else if size_ratio ≥ 2 then 0.9
  else if size_ratio ≥ 1.8 then 0.8
  else if size_ratio ≥ 1.5 then 0.7
  else if size_ratio ≥ 1.3 then 0.5
  else 0.2

/-- Position sub-score of the title extractor: step function of the index in
the first-page window. -/
def calculate_position_score (position : Nat) : ℚ :=
  if position = 0 then 1
  else if position ≤ 2 then 0.8
  else if position ≤ 5 then 0.6
  else 0.3

/-- Content sub-score of the title extractor: word-count band, case pattern,
and a penalty for numbered-list or page/figure starts, floored at 0. -/
def calculate_content_score (text : List Char) : ℚ :=
  let word_count := wordCount text
  let lengthScore : ℚ :=
    if 3 ≤ word_count ∧ word_count ≤ 20 then 0.5
    else if word_count ≤ 30 then 0.3 else 0
  let caseScore : ℚ :=
    if pyIsTitle text then 0.2
    else if pyIsUpper text && word_count ≤ 12 then 0.3 else 0
  let penalty : ℚ :=
    if matchNumDot text || startsWithCI "page ".toList text
        || startsWithCI "figure ".toList text then -0.5 else 0
  max 0 (lengthScore + caseScore + penalty)

/-- Style sub-score of the title extractor: bold and italic bonuses. -/
def calculate_style_score (elem : TextElement) : ℚ :=
  (if elem.is_bold then 0.6 else 0) + (if elem.is_italic then 0.2 else 0)

/-- Embedding of clean_title: collapse whitespace, truncate an over-long title
to all but the last word of its first 100 characters when more than one word
fits there, and fall back to the word Document for too-short results. -/
def clean_title (title : List Char) : List Char :=
  let t := pyStrip (collapseRuns title)
  let t2 :=
    if 100 < t.length then
      let words := pySplit (t.take 100)
      if 1 < words.length then joinSpace words.dropLast else t
    else t
  if 3 ≤ t2.length then t2 else "Document".toList

/-- Weighted total score of one title candidate. -/
def titleTotalScore (i : Nat) (elem : TextElement) (text : List Char)
    (stats : DocStats) : ℚ :=
  calculate_size_score elem stats * 0.4 + calculate_position_score i * 0.2 +
    calculate_content_score text * 0.2 + calculate_style_score elem * 0.2

/-- Descending order on scored title candidates, the comparison behind
sort(key, reverse=True); the insertion sort is stable exactly as Python
list.sort is, so ties keep their first-page order. -/
def candGe (a b : ℚ × List Char) : Prop := b.1 ≤ a.1

instance : DecidableRel candGe := fun a b => inferInstanceAs (Decidable (b.1 ≤ a.1))

/-- Embedding of extract_document_title: score the first 15 first-page
elements, take the best scorer, and clean it. -/
def extract_document_title (elems : List TextElement) (stats : DocStats) : List Char :=
  if elems.isEmpty then "Document".toList
  else
    let first_page := (elems.filter (fun e => e.page == 0)).take 15
    let candidates := first_page.enum.filterMap (fun p =>
      let text := pyStrip p.2.text
      if text.isEmpty || text.length < 3 then none
      else some (titleTotalScore p.1 p.2 text stats, text))
    if candidates.isEmpty then "Document".toList
    else clean_title ((List.insertionSort candGe candidates).headD (0, [])).2

/-- Font-size factor of the heading score: step function of the size ratio. -/
def headingSizeFactor (size_ratio : ℚ) : ℚ :=
  if size_ratio ≥ 2 then 0.5
  else if size_ratio ≥ 1.8 then 0.45
  else if size_ratio ≥ 1.5 then 0.4
  else if size_ratio ≥ 1.3 then 0.3
  else if size_ratio ≥ 1.2 then 0.2
  else if size_ratio ≥ 1.1 then 0.1
  else 0

/-- Pattern factor of the heading score: the first matching pattern wins,
checked in the priority order of the source. -/
def headingPatternFactor (text : List Char) : ℚ :=
  if matchMultiNum text then 0.3
  else if matchNumDotSpace text then 0.25
  else if matchLetterDotSpace text then 0.2
  else if matchWordNum "chapter".toList text || matchWordNum "section".toList text
      || matchWordNum "part".toList text then 0.35
  else if startsWithCI "appendix".toList text || startsWithCI "abstract".toList text
      || startsWithCI "introduction".toList text
      || startsWithCI "conclusion".toList text then 0.3
  else 0

/-- Case factor of the heading score: all-caps then title-case bands. -/
def headingCaseFactor (text : List Char) (word_count : Nat) : ℚ :=
  if pyIsUpper text && (2 ≤ word_count && word_count ≤ 8) then 0.2
  else if pyIsTitle text && (2 ≤ word_count && word_count ≤ 12) then 0.15
  else 0

/-- Length factor of the heading score: short lines gain, over-long lines lose. -/
def headingLengthFactor (word_count : Nat) : ℚ :=
  if 1 ≤ word_count && word_count ≤ 15 then 0.1
  else if 25 < word_count then -0.3
  else 0

/-- Punctuation factor of the heading score: trailing colon gains, a trailing
period on a long line loses. -/
def headingPunctFactor (text : List Char) (word_count : Nat) : ℚ :=
  if endsWithCh text ':' then 0.15
  else if endsWithCh text '.' && 10 < word_count then -0.2
  else 0

/-- Embedding of calculate_heading_score: additive factors capped at 1 by min,
with no floor below. -/
def calculate_heading_score (elem : TextElement) (stats : DocStats) : ℚ :=
  let text := pyStrip elem.text
  let word_count := wordCount text
  min
    (headingSizeFactor (elem.max_size / stats.dominant_size) +
      (if elem.is_bold then 0.25 else 0) +
      headingPatternFactor text +
      headingCaseFactor text word_count +
      headingLengthFactor word_count +
      headingPunctFactor text word_count)
    1

/-- Embedding of determine_heading_level: size-threshold base level with
pattern overrides applied in the order of the source. -/
def determine_heading_level (elem : TextElement) (th : SizeThresholds)
    (text : List Char) : String :=
  let base := if elem.max_size ≥ th.h1 then "H1"
    else if elem.max_size ≥ th.h2 then "H2" else "H3"
  if matchWordNum "chapter".toList text || matchWordNum "part".toList text then "H1"
  else if matchWordNum "section".toList text then "H2"
  else if matchMultiNumStart text then "H3"
  else if matchNumDotSpace text && base ≠ "H3" then "H2"
  else if (text.map asciiLower) = "abstract".toList
      ∨ (text.map asciiLower) = "introduction".toList
      ∨ (text.map asciiLower) = "conclusion".toList
      ∨ (text.map asciiLower) = "references".toList then "H1"
  else base

/-- One heading candidate before post-processing, still carrying its confidence. -/
structure OutlineItem where
  level : String
  text : List Char
  page : Nat
  confidence : ℚ
deriving DecidableEq

/-- One final outline entry, after confidence has been stripped. -/
structure OutlineEntry where
  level : String
  text : List Char
  page : Nat
deriving DecidableEq

/-- The candidate-collection loop of extract_document_outline: score every
element and keep those at or above the 0.7 cutoff, skipping texts that are
empty or shorter than two characters after stripping. -/
def outlineCandidates (elems : List TextElement) (stats : DocStats) : List OutlineItem :=
  elems.filterMap (fun elem =>
    let text := pyStrip elem.text
    if text.isEmpty || text.length < 2 then none
    else if calculate_heading_score elem stats ≥ 0.7 then
      some ⟨determine_heading_level elem stats.size_thresholds text, text, elem.page,
        calculate_heading_score elem stats⟩
    else none)

/-- Deduplication key of the post-processor: lowercased stripped text with page. -/
def ppKey (i : OutlineItem) : List Char × Nat := (pyStrip (i.text.map asciiLower), i.page)

/-- First-occurrence deduplication by key over a running seen set. -/
def dedupByKey (seen : List (List Char × Nat)) : List OutlineItem → List OutlineItem
  | [] => []
  | i :: rest =>
    if ppKey i ∈ seen then dedupByKey seen rest
    else i :: dedupByKey (ppKey i :: seen) rest

/-- Sort order of the post-processor: ascending page, then descending confidence. -/
def ppLe (a b : OutlineItem) : Prop :=
  a.page < b.page ∨ (a.page = b.page ∧ b.confidence ≤ a.confidence)

instance : DecidableRel ppLe := fun a b =>
  inferInstanceAs (Decidable (a.page < b.page ∨ (a.page = b.page ∧ b.confidence ≤ a.confidence)))

instance : IsTotal OutlineItem ppLe := by
  constructor
  intro a b
  unfold ppLe
  rcases Nat.lt_trichotomy a.page b.page with h | h | h
  · exact Or.inl (Or.inl h)
  · rcases le_total b.confidence a.confidence with hc | hc
    · exact Or.inl (Or.inr ⟨h, hc⟩)
    · exact Or.inr (Or.inr ⟨h.symm, hc⟩)
  · exact Or.inr (Or.inl h)

instance : IsTrans OutlineItem ppLe := by
  constructor
  intro a b c hab hbc
  unfold ppLe at *
  rcases hab with h1 | ⟨e1, c1⟩
  · rcases hbc with h2 | ⟨e2, _⟩
    · exact Or.inl (h1.trans h2)
    · exact Or.inl (e2 ▸ h1)
  · rcases hbc with h2 | ⟨e2, c2⟩
    · exact Or.inl (e1 ▸ h2)
    · exact Or.inr ⟨e1.trans e2, c2.trans c1⟩

/-- Descending-confidence order used before the global truncation. -/
def confGe (a b : OutlineItem) : Prop := b.confidence ≤ a.confidence

instance : DecidableRel confGe := fun a b =>
  inferInstanceAs (Decidable (b.confidence ≤ a.confidence))

instance : IsTotal OutlineItem confGe := ⟨fun a b => (le_total b.confidence a.confidence).imp id id⟩

instance : IsTrans OutlineItem confGe := ⟨fun _ _ _ h h2 => le_trans h2 h⟩

/-- Ascending-page order used to restore page order after truncation. -/
def pageLe (a b : OutlineItem) : Prop := a.page ≤ b.page

instance : DecidableRel pageLe := fun a b => inferInstanceAs (Decidable (a.page ≤ b.page))

instance : IsTotal OutlineItem pageLe := ⟨fun a b => Nat.le_total a.page b.page⟩

instance : IsTrans OutlineItem pageLe := ⟨fun _ _ _ h h2 => Nat.le_trans h h2⟩

/-- Greedy per-page filter of the post-processor: keep an entry only while its
page has fewer than five kept entries and its confidence clears 0.7. -/
def greedyFilter (counts : Nat → Nat) : List OutlineItem → List OutlineItem
  | [] => []
  | i :: rest =>
    if counts i.page < 5 ∧ (0.7 : ℚ) ≤ i.confidence then
      i :: greedyFilter (fun p => if p = i.page then counts p + 1 else counts p) rest
    else greedyFilter counts rest

/-- Embedding of post_process_outline: deduplicate, sort by page and
confidence, apply the per-page greedy cap, and truncate to the twenty most
confident entries when needed, restoring page order.  Both Python sorts are
stable, which the insertion sort reproduces exactly. -/
def post_process_outline (outline : List OutlineItem) : List OutlineItem :=
  if outline.isEmpty then outline
  else
    let unique := dedupByKey [] outline
    let sorted := List.insertionSort ppLe unique
    let filtered := greedyFilter (fun _ => 0) sorted
    if 20 < filtered.length then
      List.insertionSort pageLe ((List.insertionSort confGe filtered).take 20)
    else filtered

/-- Embedding of extract_document_outline: collect candidates, post-process,
and strip the confidence field. -/
def extract_document_outline (elems : List TextElement) (stats : DocStats) :
    List OutlineEntry :=
  (post_process_outline (outlineCandidates elems stats)).map
    (fun i => ⟨i.level, i.text, i.page⟩)

/-- Flow A per-document result: a title and a final outline. -/
structure OutlineResult where
  title : List Char
  outline : List OutlineEntry
deriving DecidableEq

/-- The fallback emitted when extraction of a document fails. -/
def fallbackResult : OutlineResult := ⟨"Document".toList, []⟩

/-- Embedding of extract_document_structure on successfully extracted text
elements: statistics, then title, then outline. -/
def extract_document_structure (elems : List TextElement) : OutlineResult :=
  let stats := analyze_document_statistics elems
  ⟨extract_document_title elems stats, extract_document_outline elems stats⟩

/-- Embedding of the process_all_pdfs batch loop.  Opening and parsing one
document is the fallible step, modelled as an Except value per document;
the try/except of the source turns a failure into the fallback result and
continues with the remaining documents. -/
def process_all_pdfs (docs : List (Except String (List TextElement))) :
    List OutlineResult :=
  docs.map (fun d =>
    match d with
    | Except.ok elems => extract_document_structure elems
    | Except.error _ => fallbackResult)

/-- One text element of the Round 1B pipeline; only the fields read by
is_section_heading are aggregated there (max size is never computed). -/
structure SectionElem where
  text : List Char
  page : Nat
  avg_size : ℚ
  is_bold : Bool
deriving DecidableEq

/-- Document-structure record of the Round 1B pipeline. -/
structure DocAnalysis where
  primary_size : ℚ
  heading_threshold : ℚ
deriving DecidableEq

/-- Round 1B heading pattern one, digits optional-dot whitespace then a
letter.  The source compiles it with re.IGNORECASE, so the letter class
matches either case. -/
def matchHeadingNumCI (t : List Char) : Bool := digitsThen (optDotSpacesThen firstIsAlpha) t

/-- Round 1B heading pattern two, a letter followed by letters and whitespace
to the end of the line.  Compiled with re.IGNORECASE in the source, the
nominally uppercase classes accept lowercase letters as well. -/
def matchCapsLineCI (t : List Char) : Bool :=
  match t with
  | c :: rest => isAlphaCh c && !rest.isEmpty &&
      rest.all (fun d => isAlphaCh d || pyIsSpace d)
  | [] => false

/-- Round 1B heading pattern three: the whole line equals one of the keyword
words, case-insensitively. -/
def matchKeywordLineCI (t : List Char) : Bool :=
  ["chapter", "section", "abstract", "introduction", "conclusion", "methodology"].any
    (fun w => (t.map asciiLower) == w.toList)

/-- Embedding of is_section_heading: size check, then bold short-line check,
then the three IGNORECASE patterns. -/
def is_section_heading (elem : SectionElem) (da : DocAnalysis) : Bool :=
  let text := pyStrip elem.text
  if elem.avg_size ≥ da.heading_threshold then true
  else if elem.is_bold && wordCount text ≤ 15 then true
  else if matchHeadingNumCI text || matchCapsLineCI text || matchKeywordLineCI text then true
  else false

/-- Round 1B heading pattern one as the specification words it, with a
case-sensitive uppercase letter after the numbering. -/
def specHeadingNumCS (t : List Char) : Bool := digitsThen (optDotSpacesThen firstIsUpper) t

/-- Round 1B heading pattern two as the specification words it: an all-caps
line of uppercase letters and whitespace. -/
def specCapsLineCS (t : List Char) : Bool :=
  match t with
  | c :: rest => isUpperCh c && !rest.isEmpty &&
      rest.all (fun d => isUpperCh d || pyIsSpace d)
  | [] => false

/-- The heading test exactly as the claim words it: threshold, bold short
line, case-sensitive numbered start, case-sensitive all-caps line, or a
case-insensitive keyword line. -/
def claimed_is_section_heading (elem : SectionElem) (da : DocAnalysis) : Bool :=
  elem.avg_size ≥ da.heading_threshold ||
    (elem.is_bold && wordCount (pyStrip elem.text) ≤ 15) ||
    specHeadingNumCS (pyStrip elem.text) ||
    specCapsLineCS (pyStrip elem.text) ||
    matchKeywordLineCI (pyStrip elem.text)

/-- The stopword set of extract_expertise_areas. -/
def commonWords : List (List Char) :=
  ["the", "and", "for", "are", "but", "not", "you", "all", "can", "had"].map String.toList

/-- Scanner for re.findall with word-boundary letters-only tokens of length at
least four: walk the text collecting maximal letter runs; a run is a token
when it is long enough and the characters on both sides, when present, are
not word characters (a digit or underscore neighbour kills the boundary). -/
def tokenScan (startOk : Bool) (cur : List Char) : List Char → List (List Char)
  | [] => if startOk && 4 ≤ cur.length then [cur.reverse] else []
  | c :: rest =>
    if isAlphaCh c then tokenScan startOk (c :: cur) rest
    else
      (if startOk && 4 ≤ cur.length && !(isWordCh c) then [cur.reverse] else []) ++
        tokenScan (!(isWordCh c)) [] rest

/-- All word-bounded alphabetic tokens of length at least four, the result of
the general keyword extraction regex of the source. -/
def alphaTokens (s : List Char) : List (List Char) := tokenScan true [] s

/-- Embedding of extract_expertise_areas: domain-triggered keyword bundles,
plus all alphabetic tokens of length at least four of the lowercased persona
that survive the stopword filter, deduplicated.  Python returns
list(set(...)) in unspecified order; the embedding fixes first-occurrence
order, which leaves membership identical. -/
def extract_expertise_areas (persona : List Char) : List (List Char) :=
  let lp := persona.map asciiLower
  let bundles :=
    (if isSubstringOf "computational biology".toList lp
        || isSubstringOf "drug discovery".toList lp then
      ["computational", "biology", "drug", "discovery", "methodology", "datasets"].map
        String.toList
    else []) ++
    (if isSubstringOf "investment".toList lp || isSubstringOf "financial".toList lp
        || isSubstringOf "analyst".toList lp then
      ["financial", "investment", "revenue", "market", "analysis"].map String.toList
    else []) ++
    (if isSubstringOf "chemistry".toList lp || isSubstringOf "organic".toList lp
        || isSubstringOf "student".toList lp then
      ["chemistry", "organic", "reaction", "kinetics", "mechanisms"].map String.toList
    else [])
  let words := alphaTokens lp
  firstDedup (bundles ++ words.filter (fun w => !(decide (w ∈ commonWords))))

/-- One scored section of the Round 1B pipeline, before ranking. -/
structure ScoredSection where
  title : List Char
  content : List Char
  document : List Char
  page : Nat
  relevance_score : ℚ
deriving DecidableEq

/-- Descending relevance order, the comparison behind the ranker sort; the
stable insertion sort matches the stable Python sorted exactly. -/
def scoreGe (a b : ScoredSection) : Prop := b.relevance_score ≤ a.relevance_score

instance : DecidableRel scoreGe := fun a b =>
  inferInstanceAs (Decidable (b.relevance_score ≤ a.relevance_score))

instance : IsTotal ScoredSection scoreGe :=
  ⟨fun a b => (le_total b.relevance_score a.relevance_score).imp id id⟩

instance : IsTrans ScoredSection scoreGe := ⟨fun _ _ _ h h2 => le_trans h2 h⟩

/-- Greedy diverse selection of rank_and_select: walk the descending list,
stop at ten selections, skip low scores and documents that already
contributed three selections. -/
def selectLoop (counts : List Char → Nat) (selCount : Nat) :
    List ScoredSection → List ScoredSection
  | [] => []
  | s :: rest =>
    if 10 ≤ selCount then []
    else if s.relevance_score < 0.3 then selectLoop counts selCount rest
    else if 3 ≤ counts s.document then selectLoop counts selCount rest
    else s :: selectLoop (fun d => if d = s.document then counts d + 1 else counts d)
      (selCount + 1) rest

/-- Embedding of rank_and_select: sort by descending score, select greedily,
and attach one-based ranks in selection order. -/
def rank_and_select (scored : List ScoredSection) : List (ScoredSection × Nat) :=
  if scored.isEmpty then []
  else
    let ranked := List.insertionSort scoreGe scored
    let selected := selectLoop (fun _ => 0) 0 ranked
    selected.enum.map (fun p => (p.2, p.1 + 1))

/-- Concrete 26-word lowercase line ending in a period, used as a test input. -/
def c1ex : TextElement :=
  ⟨("zz zz zz zz zz zz zz zz zz zz zz zz zz zz zz zz zz zz zz zz zz zz zz zz zz zz.").toList,
    0, 12, 12, false, false⟩

/-- Default statistics record used as a test input. -/
def defStats : DocStats := ⟨12, ⟨18, 15, 13⟩⟩

/-- Invariant of a post-processed outline: pairwise distinct deduplication
keys, sorted by page then descending confidence, at most five entries per
page, every confidence at least 0.7, and at most twenty entries in all. -/
def GoodOutline (l : List OutlineItem) : Prop :=
  l.Pairwise (fun a b => ppKey a ≠ ppKey b) ∧ l.Sorted ppLe ∧
    (∀ p, (l.filter (fun i => decide (i.page = p))).length ≤ 5) ∧
    (∀ i ∈ l, (0.7 : ℚ) ≤ i.confidence) ∧ l.length ≤ 20

/-- Concrete one-letter bold oversized element used as a test input. -/
def c5ex1 : TextElement := ⟨("A").toList, 0, 24, 24, true, false⟩

/-- Concrete one-letter body element used as a test input. -/
def c5ex2 : TextElement := ⟨("a").toList, 0, 12, 12, false, false⟩

/-- Concrete one-letter body element on page one used as a test input. -/
def c5ex3 : TextElement := ⟨("b").toList, 1, 12, 12, false, false⟩

/-- Concrete three-element document used as a test input. -/
def c5elems : List TextElement := [c5ex1, c5ex2, c5ex3]

/-- Concrete numbered heading element used as a test input. -/
def c5wex : TextElement := ⟨("1. Introduction").toList, 0, 16, 16, false, false⟩

/-- Concrete 150-character single-word element used as a test input. -/
def c6ex : TextElement := ⟨List.replicate 150 'a', 0, 20, 20, false, false⟩

/-- Concrete over-long two-word title used as a test input. -/
def c6wtitle : List Char := ("aaa ").toList ++ List.replicate 120 'b'

/-- Concrete single element with a negative font size used as a test input. -/
def c7ex : TextElement := ⟨("x").toList, 0, -10, -10, false, false⟩

/-- Concrete four-element document with three distinct sizes, a test input. -/
def c7welems : List TextElement :=
  [⟨("h").toList, 0, 20, 20, false, false⟩, ⟨("m").toList, 0, 16, 16, false, false⟩,
    ⟨("y").toList, 0, 12, 12, false, false⟩, ⟨("z").toList, 1, 12, 12, false, false⟩]

/-- Concrete one-entry outline used as a test input. -/
def c3wlist : List OutlineItem := [⟨"H1", ("Intro").toList, 0, 1⟩]

/-- Concrete scored section used as a test input. -/
def c4wsec : ScoredSection := ⟨("T").toList, ("body").toList, ("doc.pdf").toList, 0, 1⟩

theorem headingSizeFactor_bounds (r : ℚ) :
    0 ≤ headingSizeFactor r ∧ headingSizeFactor r ≤ 0.5 := by
  unfold headingSizeFactor
  split_ifs <;> norm_num

theorem headingPatternFactor_bounds (t : List Char) :
    0 ≤ headingPatternFactor t ∧ headingPatternFactor t ≤ 0.35 := by
  unfold headingPatternFactor
  split_ifs <;> norm_num

theorem headingCaseFactor_bounds (t : List Char) (wc : Nat) :
    0 ≤ headingCaseFactor t wc ∧ headingCaseFactor t wc ≤ 0.2 := by
  unfold headingCaseFactor
  split_ifs <;> norm_num

theorem headingLengthFactor_bounds (wc : Nat) :
    -(0.3 : ℚ) ≤ headingLengthFactor wc ∧ headingLengthFactor wc ≤ 0.1 := by
  unfold headingLengthFactor
  split_ifs <;> norm_num

theorem headingPunctFactor_bounds (t : List Char) (wc : Nat) :
    -(0.2 : ℚ) ≤ headingPunctFactor t wc ∧ headingPunctFactor t wc ≤ 0.15 := by
  unfold headingPunctFactor
  split_ifs <;> norm_num

/-- C1 (amended): for every TextElement and every DocumentStatistics the
heading-likelihood score is capped at 1 but has no floor at 0; it always
lies in the interval from -0.5 to 1, and can genuinely be negative. -/
theorem c1_heading_score_range (elem : TextElement) (stats : DocStats) :
    -(0.5 : ℚ) ≤ calculate_heading_score elem stats ∧
      calculate_heading_score elem stats ≤ 1 := by
  have hs := headingSizeFactor_bounds (elem.max_size / stats.dominant_size)
  have hp := headingPatternFactor_bounds (pyStrip elem.text)
  have hc := headingCaseFactor_bounds (pyStrip elem.text) (wordCount (pyStrip elem.text))
  have hl := headingLengthFactor_bounds (wordCount (pyStrip elem.text))
  have hq := headingPunctFactor_bounds (pyStrip elem.text) (wordCount (pyStrip elem.text))
  have hb : (0 : ℚ) ≤ (if elem.is_bold then (0.25 : ℚ) else 0) := by
    split <;> norm_num
  simp only [calculate_heading_score]
  constructor
  · exact le_min (by linarith [hs.1, hp.1, hc.1, hl.1, hq.1, hb]) (by norm_num)
  · exact min_le_right _ _

/-- C1 counterexample: a 26-word lowercase line ending in a period, at the
dominant size and not bold, scores -0.5, refuting that the score is never
negative. -/
theorem c1_counterexample : calculate_heading_score c1ex defStats < 0 := by
  have hstrip : pyStrip c1ex.text = c1ex.text := by decide
  have hwc : wordCount c1ex.text = 26 := by decide
  have hm1 : matchMultiNum c1ex.text = false := by decide
  have hm2 : matchNumDotSpace c1ex.text = false := by decide
  have hm3 : matchLetterDotSpace c1ex.text = false := by decide
  have hm4 : matchWordNum "chapter".toList c1ex.text = false := by decide
  have hm5 : matchWordNum "section".toList c1ex.text = false := by decide
  have hm6 : matchWordNum "part".toList c1ex.text = false := by decide
  have hm7 : startsWithCI "appendix".toList c1ex.text = false := by decide
  have hm8 : startsWithCI "abstract".toList c1ex.text = false := by decide
  have hm9 : startsWithCI "introduction".toList c1ex.text = false := by decide
  have hm10 : startsWithCI "conclusion".toList c1ex.text = false := by decide
  have hu : pyIsUpper c1ex.text = false := by decide
  have ht : pyIsTitle c1ex.text = false := by decide
  have he1 : endsWithCh c1ex.text ':' = false := by decide
  have he2 : endsWithCh c1ex.text '.' = true := by decide
  have hbold : c1ex.is_bold = false := rfl
  have hsize : c1ex.max_size = 12 := rfl
  have hdom : defStats.dominant_size = 12 := rfl
  rw [calculate_heading_score]
  simp only [hstrip, hwc, hbold, hsize, hdom]
  rw [headingPatternFactor]
  rw [headingCaseFactor]
  rw [headingLengthFactor]
  rw [headingPunctFactor]
  simp only [hm1, hm2, hm3, hm4, hm5, hm6, hm7, hm8, hm9, hm10, hu, ht, he1, he2]
  norm_num [headingSizeFactor]

/-- C2 (amended): the heading test holds exactly when the average size clears
the threshold, or the element is bold with at most 15 words, or one of the
three patterns matches; all three patterns are compiled with re.IGNORECASE in
the source, so the nominally uppercase classes accept lowercase letters, and
a lowercase line of letters and spaces such as hello world is a heading. -/
theorem c2_is_section_heading_iff (elem : SectionElem) (da : DocAnalysis) :
    is_section_heading elem da = true ↔
      (da.heading_threshold ≤ elem.avg_size
        ∨ (elem.is_bold = true ∧ wordCount (pyStrip elem.text) ≤ 15)
        ∨ matchHeadingNumCI (pyStrip elem.text) = true
        ∨ matchCapsLineCI (pyStrip elem.text) = true
        ∨ matchKeywordLineCI (pyStrip elem.text) = true) := by
  simp only [is_section_heading]
  split_ifs with hA hB hC <;>
    simp_all [Bool.and_eq_true, Bool.or_eq_true, decide_eq_true_eq]
  tauto

/-- C2 counterexample: the small-font, non-bold, lowercase line hello world is
judged a heading by the code, because the IGNORECASE all-caps pattern accepts
it, while the claimed case-sensitive reading of the patterns rejects it. -/
theorem c2_counterexample :
    is_section_heading ⟨("hello world").toList, 0, 12, false⟩ ⟨12, 14⟩ = true ∧
      claimed_is_section_heading ⟨("hello world").toList, 0, 12, false⟩ ⟨12, 14⟩ = false := by
  constructor
  · decide
  · decide

theorem mem_firstDedup {α : Type} [DecidableEq α] (x : α) :
    ∀ l : List α, x ∈ firstDedup l ↔ x ∈ l := by
  intro l
  induction l with
  | nil => simp [firstDedup]
  | cons a t ih =>
    simp only [firstDedup, List.mem_cons, List.mem_filter, ih, decide_eq_true_eq]
    constructor
    · rintro (rfl | ⟨h, _⟩)
      · exact Or.inl rfl
      · exact Or.inr h
    · rintro (rfl | h)
      · exact Or.inl rfl
      · by_cases hx : x = a
        · exact Or.inl hx
        · exact Or.inr ⟨h, hx⟩

theorem tokenScan_min_length (s : List Char) :
    ∀ (startOk : Bool) (cur w : List Char), w ∈ tokenScan startOk cur s → 4 ≤ w.length := by
  induction s with
  | nil =>
    intro startOk cur w hw
    simp only [tokenScan] at hw
    split_ifs at hw with h
    · rcases List.mem_singleton.mp hw with rfl
      simp only [Bool.and_eq_true, decide_eq_true_eq] at h
      simpa using h.2
    · simp at hw
  | cons c rest ih =>
    intro startOk cur w hw
    simp only [tokenScan] at hw
    split_ifs at hw with h hg
    · exact ih _ _ _ hw
    · rcases List.mem_append.mp hw with h1 | h2
      · rcases List.mem_singleton.mp h1 with rfl
        simp only [Bool.and_eq_true, decide_eq_true_eq] at hg
        simpa using hg.1.2
      · exact ih _ _ _ h2
    · simp only [List.nil_append] at hw
      exact ih _ _ _ hw

theorem commonWords_length : ∀ w ∈ commonWords, w.length = 3 := by decide

/-- C10: every word-bounded alphabetic token of length at least four of the
lowercased persona text lands in the expertise areas, and never belongs to
the stopword set, whose members all have exactly three letters; the stopword
exclusion is therefore vacuous. -/
theorem c10_expertise_contains_tokens (persona w : List Char)
    (hw : w ∈ alphaTokens (persona.map asciiLower)) :
    w ∈ extract_expertise_areas persona ∧ w ∉ commonWords ∧ 4 ≤ w.length := by
  have hlen : 4 ≤ w.length := tokenScan_min_length _ _ _ _ hw
  have hnc : w ∉ commonWords := by
    intro hmem
    have := commonWords_length w hmem
    omega
  refine ⟨?_, hnc, hlen⟩
  simp only [extract_expertise_areas]
  refine (mem_firstDedup _ _).mpr (List.mem_append_right _ ?_)
  exact List.mem_filter.mpr ⟨hw, by simp [hnc]⟩

/-- C10 witness: the token data of the persona Data Scientist is a concrete
instance of the theorem. -/
theorem c10_witness :
    ("data").toList ∈ alphaTokens ((("Data Scientist").toList).map asciiLower) ∧
      (("data").toList ∈ extract_expertise_areas (("Data Scientist").toList) ∧
        ("data").toList ∉ commonWords ∧ 4 ≤ (("data").toList).length) :=
  ⟨by decide, c10_expertise_contains_tokens _ _ (by decide)⟩

theorem getD_map_of_lt {α β : Type} (f : α → β) (d : α) (d2 : β) (l : List α) :
    ∀ i : Nat, i < l.length → (l.map f).getD i d2 = f (l.getD i d) := by
  induction l with
  | nil =>
    intro i h
    simp at h
  | cons a t ih =>
    intro i h
    cases i with
    | zero => simp
    | succ n =>
      simp only [List.map_cons, List.getD_cons_succ]
      exact ih n (by simpa using h)

/-- C9: the batch loop produces exactly one result per input document; a
document whose extraction fails contributes exactly the Document-with-empty-
outline fallback, and a document whose extraction succeeds contributes its
extracted structure, independently of failures elsewhere in the batch. -/
theorem c9_batch_isolation (docs : List (Except String (List TextElement))) (i : Nat)
    (h : i < docs.length) :
    (process_all_pdfs docs).length = docs.length ∧
      (∀ err, docs.getD i (Except.ok []) = Except.error err →
        (process_all_pdfs docs).getD i fallbackResult = fallbackResult) ∧
      (∀ elems, docs.getD i (Except.ok []) = Except.ok elems →
        (process_all_pdfs docs).getD i fallbackResult = extract_document_structure elems) := by
  refine ⟨by simp [process_all_pdfs], ?_, ?_⟩
  · intro err herr
    rw [process_all_pdfs, getD_map_of_lt _ (Except.ok []) _ _ i h, herr]
  · intro elems helems
    rw [process_all_pdfs, getD_map_of_lt _ (Except.ok []) _ _ i h, helems]

/-- C9 witness: a two-document batch whose first document fails to extract and
whose second succeeds with no text elements. -/
theorem c9_witness :
    (process_all_pdfs [Except.error "bad file", Except.ok []]).length = 2 ∧
      (process_all_pdfs [Except.error "bad file", Except.ok []]).getD 0 fallbackResult
        = fallbackResult ∧
      (process_all_pdfs [Except.error "bad file", Except.ok []]).getD 1 fallbackResult
        = extract_document_structure [] := by
  refine ⟨?_, ?_, ?_⟩
  · exact (c9_batch_isolation [Except.error "bad file", Except.ok []] 0 (by decide)).1
  · exact (c9_batch_isolation [Except.error "bad file", Except.ok []] 0 (by decide)).2.1
      "bad file" rfl
  · exact (c9_batch_isolation [Except.error "bad file", Except.ok []] 1 (by decide)).2.2
      [] rfl

theorem selectLoop_length (l : List ScoredSection) :
    ∀ (counts : List Char → Nat) (n : Nat), (selectLoop counts n l).length ≤ 10 - n := by
  induction l with
  | nil =>
    intro counts n
    simp [selectLoop]
  | cons s rest ih =>
    intro counts n
    simp only [selectLoop]
    split_ifs with h1 h2 h3
    · simp
    · exact ih counts n
    · exact ih counts n
    · simp only [List.length_cons]
      have := ih (fun d => if d = s.document then counts d + 1 else counts d) (n + 1)
      omega

theorem selectLoop_score (l : List ScoredSection) :
    ∀ (counts : List Char → Nat) (n : Nat) (x : ScoredSection),
      x ∈ selectLoop counts n l → (0.3 : ℚ) ≤ x.relevance_score := by
  induction l with
  | nil =>
    intro counts n x hx
    simp [selectLoop] at hx
  | cons s rest ih =>
    intro counts n x hx
    simp only [selectLoop] at hx
    split_ifs at hx with h1 h2 h3
    · simp at hx
    · exact ih _ _ _ hx
    · exact ih _ _ _ hx
    · rcases List.mem_cons.mp hx with rfl | hmem
      · exact le_of_not_lt h2
      · exact ih _ _ _ hmem

theorem selectLoop_doc_cap (l : List ScoredSection) :
    ∀ (counts : List Char → Nat) (n : Nat) (d : List Char),
      ((selectLoop counts n l).filter (fun x => decide (x.document = d))).length
        ≤ 3 - counts d := by
  induction l with
  | nil =>
    intro counts n d
    simp [selectLoop]
  | cons s rest ih =>
    intro counts n d
    simp only [selectLoop]
    split_ifs with h1 h2 h3
    · simp
    · exact ih _ _ _
    · exact ih _ _ _
    · by_cases hd : s.document = d
      · have hih := ih (fun x => if x = s.document then counts x + 1 else counts x) (n + 1) d
        rw [if_pos hd.symm] at hih
        have hlt : counts d < 3 := by
          rw [← hd]
          omega
        have hcond : (decide (s.document = d)) = true := by simp [hd]
        simp only [List.filter_cons, hcond, eq_self_iff_true, if_true, List.length_cons]
        omega
      · have hih := ih (fun x => if x = s.document then counts x + 1 else counts x) (n + 1) d
        rw [if_neg (fun h => hd h.symm)] at hih
        have hcond : (decide (s.document = d)) = false := by simp [hd]
        simp only [List.filter_cons, hcond, Bool.false_eq_true, if_false]
        exact hih

theorem enumFrom_rank_filter_len (d : List Char) :
    ∀ (l : List ScoredSection) (n : Nat),
      (((List.enumFrom n l).map (fun p => (p.2, p.1 + 1))).filter
          (fun x => decide (x.1.document = d))).length
        = (l.filter (fun x => decide (x.document = d))).length := by
  intro l
  induction l with
  | nil =>
    intro n
    simp
  | cons a t ih =>
    intro n
    simp only [List.enumFrom, List.map_cons, List.filter_cons]
    cases hq : decide (a.document = d) <;> simp [hq, ih]

theorem enumFrom_rank_mem_fst {α : Type} :
    ∀ (l : List α) (n : Nat) (x : α × Nat),
      x ∈ (List.enumFrom n l).map (fun p => (p.2, p.1 + 1)) → x.1 ∈ l := by
  intro l
  induction l with
  | nil =>
    intro n x hx
    simp at hx
  | cons a t ih =>
    intro n x hx
    simp only [List.enumFrom, List.map_cons, List.mem_cons] at hx
    rcases hx with rfl | hx
    · exact List.mem_cons_self _ _
    · exact List.mem_cons_of_mem _ (ih _ _ hx)

theorem enumFrom_rank_map_snd {α : Type} :
    ∀ (l : List α) (n : Nat),
      ((List.enumFrom n l).map (fun p => (p.2, p.1 + 1))).map Prod.snd
        = List.range' (n + 1) l.length := by
  intro l
  induction l with
  | nil =>
    intro n
    simp
  | cons a t ih =>
    intro n
    simp only [List.enumFrom, List.map_cons, List.length_cons, List.range'_succ]
    rw [ih]

/-- C4: the ranked selection never exceeds ten sections, never takes more than
three from one document, never includes a relevance score below 0.3, and the
attached ranks are exactly 1, 2, 3 and so on in selection order. -/
theorem c4_rank_and_select (scored : List ScoredSection) :
    (rank_and_select scored).length ≤ 10 ∧
      (∀ d, ((rank_and_select scored).filter
        (fun x => decide (x.1.document = d))).length ≤ 3) ∧
      (∀ x ∈ rank_and_select scored, (0.3 : ℚ) ≤ x.1.relevance_score) ∧
      (rank_and_select scored).map Prod.snd
        = List.range' 1 (rank_and_select scored).length := by
  by_cases hempty : scored.isEmpty
  · simp [rank_and_select, hempty]
  · simp only [rank_and_select, hempty, Bool.false_eq_true, if_false, List.enum]
    refine ⟨?_, ?_, ?_, ?_⟩
    · rw [List.length_map, List.enumFrom_length]
      have := selectLoop_length (List.insertionSort scoreGe scored) (fun _ => 0) 0
      omega
    · intro d
      rw [enumFrom_rank_filter_len]
      have := selectLoop_doc_cap (List.insertionSort scoreGe scored) (fun _ => 0) 0 d
      omega
    · intro x hx
      exact selectLoop_score _ _ _ _ (enumFrom_rank_mem_fst _ _ _ hx)
    · rw [enumFrom_rank_map_snd, List.length_map, List.enumFrom_length]

theorem dedupByKey_sublist (l : List OutlineItem) :
    ∀ seen : List (List Char × Nat), List.Sublist (dedupByKey seen l) l := by
  induction l with
  | nil =>
    intro seen
    simp [dedupByKey]
  | cons i rest ih =>
    intro seen
    simp only [dedupByKey]
    split_ifs with h
    · exact (ih seen).cons i
    · exact (ih _).cons₂ i

theorem mem_dedupByKey_not_seen (l : List OutlineItem) :
    ∀ (seen : List (List Char × Nat)) (x : OutlineItem),
      x ∈ dedupByKey seen l → ppKey x ∉ seen := by
  induction l with
  | nil =>
    intro seen x hx
    simp [dedupByKey] at hx
  | cons i rest ih =>
    intro seen x hx
    simp only [dedupByKey] at hx
    split_ifs at hx with h
    · exact ih seen x hx
    · rcases List.mem_cons.mp hx with rfl | hmem
      · exact h
      · intro hs
        exact ih _ x hmem (List.mem_cons_of_mem _ hs)

theorem dedupByKey_pairwise (l : List OutlineItem) :
    ∀ seen : List (List Char × Nat),
      (dedupByKey seen l).Pairwise (fun a b => ppKey a ≠ ppKey b) := by
  induction l with
  | nil =>
    intro seen
    simp [dedupByKey]
  | cons i rest ih =>
    intro seen
    simp only [dedupByKey]
    split_ifs with h
    · exact ih seen
    · refine List.Pairwise.cons ?_ (ih _)
      intro b hb he
      exact mem_dedupByKey_not_seen _ _ _ hb (he ▸ List.mem_cons_self _ _)

theorem dedupByKey_eq_self (l : List OutlineItem) :
    ∀ seen : List (List Char × Nat), (∀ x ∈ l, ppKey x ∉ seen) →
      l.Pairwise (fun a b => ppKey a ≠ ppKey b) → dedupByKey seen l = l := by
  induction l with
  | nil =>
    intro seen _ _
    rfl
  | cons i rest ih =>
    intro seen hseen hpw
    simp only [dedupByKey]
    rw [if_neg (hseen i (List.mem_cons_self _ _))]
    congr 1
    apply ih
    · intro x hx
      simp only [List.mem_cons]
      rintro (he | hs)
      · exact (List.pairwise_cons.mp hpw).1 x hx he.symm
      · exact hseen x (List.mem_cons_of_mem _ hx) hs
    · exact (List.pairwise_cons.mp hpw).2

theorem greedyFilter_sublist (l : List OutlineItem) :
    ∀ counts : Nat → Nat, List.Sublist (greedyFilter counts l) l := by
  induction l with
  | nil =>
    intro counts
    simp [greedyFilter]
  | cons i rest ih =>
    intro counts
    simp only [greedyFilter]
    split_ifs with h
    · exact (ih _).cons₂ i
    · exact (ih counts).cons i

theorem mem_greedyFilter_conf (l : List OutlineItem) :
    ∀ (counts : Nat → Nat) (x : OutlineItem),
      x ∈ greedyFilter counts l → (0.7 : ℚ) ≤ x.confidence := by
  induction l with
  | nil =>
    intro counts x hx
    simp [greedyFilter] at hx
  | cons i rest ih =>
    intro counts x hx
    simp only [greedyFilter] at hx
    split_ifs at hx with h
    · rcases List.mem_cons.mp hx with rfl | hmem
      · exact h.2
      · exact ih _ _ hmem
    · exact ih _ _ hx

theorem greedyFilter_page_count (l : List OutlineItem) :
    ∀ (counts : Nat → Nat) (p : Nat),
      ((greedyFilter counts l).filter (fun i => decide (i.page = p))).length
        ≤ 5 - counts p := by
  induction l with
  | nil =>
    intro counts p
    simp [greedyFilter]
  | cons i rest ih =>
    intro counts p
    simp only [greedyFilter]
    split_ifs with h
    · by_cases hp : i.page = p
      · have hih := ih (fun q => if q = i.page then counts q + 1 else counts q) p
        rw [if_pos hp.symm] at hih
        have hlt : counts p < 5 := hp ▸ h.1
        have hcond : (decide (i.page = p)) = true := by simp [hp]
        simp only [List.filter_cons, hcond, eq_self_iff_true, if_true, List.length_cons]
        omega
      · have hih := ih (fun q => if q = i.page then counts q + 1 else counts q) p
        rw [if_neg (fun hh => hp hh.symm)] at hih
        have hcond : (decide (i.page = p)) = false := by simp [hp]
        simp only [List.filter_cons, hcond, Bool.false_eq_true, if_false]
        exact hih
    · exact ih counts p

theorem greedyFilter_eq_self (l : List OutlineItem) :
    ∀ counts : Nat → Nat,
      (∀ p, counts p + (l.filter (fun i => decide (i.page = p))).length ≤ 5) →
      (∀ i ∈ l, (0.7 : ℚ) ≤ i.confidence) → greedyFilter counts l = l := by
  induction l with
  | nil =>
    intro counts _ _
    rfl
  | cons i rest ih =>
    intro counts hcount hconf
    have hhead : counts i.page < 5 := by
      have h5 := hcount i.page
      rw [List.filter_cons_of_pos (by simp), List.length_cons] at h5
      omega
    simp only [greedyFilter]
    rw [if_pos ⟨hhead, hconf i (List.mem_cons_self _ _)⟩]
    congr 1
    apply ih
    · intro p
      by_cases hp : p = i.page
      · have h5 := hcount p
        rw [List.filter_cons_of_pos (by simp [hp]), List.length_cons] at h5
        rw [if_pos hp]
        omega
      · have h5 := hcount p
        rw [List.filter_cons_of_neg (by simp [Ne.symm hp])] at h5
        rw [if_neg hp]
        exact h5
    · intro x hx
      exact hconf x (List.mem_cons_of_mem _ hx)

theorem orderedInsert_pageLe_sorted (a : OutlineItem) :
    ∀ L : List OutlineItem, L.Sorted ppLe → L.Sorted pageLe →
      (∀ b ∈ L, confGe a b) → (List.orderedInsert pageLe a L).Sorted ppLe := by
  intro L
  induction L with
  | nil =>
    intro _ _ _
    simp [List.orderedInsert]
  | cons b L ih =>
    intro hpp hpage ha
    simp only [List.orderedInsert]
    split_ifs with hab
    · rw [List.sorted_cons]
      refine ⟨?_, hpp⟩
      intro z hz
      have haz : a.page ≤ z.page := by
        rcases List.mem_cons.mp hz with rfl | hzL
        · exact hab
        · exact le_trans hab (List.rel_of_sorted_cons hpage z hzL)
      rcases lt_or_eq_of_le haz with h | h
      · exact Or.inl h
      · exact Or.inr ⟨h, ha z hz⟩
    · rw [List.sorted_cons]
      constructor
      · intro z hz
        rcases (List.mem_orderedInsert pageLe).mp hz with rfl | hzL
        · exact Or.inl (Nat.lt_of_not_le hab)
        · exact List.rel_of_sorted_cons hpp z hzL
      · exact ih hpp.of_cons hpage.of_cons (fun z hz => ha z (List.mem_cons_of_mem _ hz))

theorem insertionSort_pageLe_sorted_ppLe :
    ∀ l : List OutlineItem, l.Sorted confGe →
      (List.insertionSort pageLe l).Sorted ppLe := by
  intro l
  induction l with
  | nil =>
    intro _
    simp [List.insertionSort]
  | cons a t ih =>
    intro hs
    simp only [List.insertionSort]
    apply orderedInsert_pageLe_sorted
    · exact ih hs.of_cons
    · exact List.sorted_insertionSort pageLe t
    · intro b hb
      exact List.rel_of_sorted_cons hs b ((List.mem_insertionSort pageLe).mp hb)

theorem ppKey_ne_symm : ∀ {a b : OutlineItem},
    (fun a b => ppKey a ≠ ppKey b) a b → (fun a b => ppKey a ≠ ppKey b) b a :=
  fun h e => h e.symm

theorem post_process_outline_good (l : List OutlineItem) :
    GoodOutline (post_process_outline l) := by
  simp only [post_process_outline]
  split_ifs with hemp hlen
  · have hl : l = [] := List.isEmpty_iff.mp hemp
    subst hl
    exact ⟨by simp, by simp, by simp, by simp, by simp⟩
  · -- truncation branch
    have hpw_u := dedupByKey_pairwise l []
    have hpw_s := ((List.perm_insertionSort ppLe _).pairwise_iff ppKey_ne_symm).mpr hpw_u
    have hf_sub := greedyFilter_sublist (List.insertionSort ppLe (dedupByKey [] l)) (fun _ => 0)
    have hpw_f := hpw_s.sublist hf_sub
    have hconf_f : ∀ i ∈ greedyFilter (fun _ => 0)
        (List.insertionSort ppLe (dedupByKey [] l)), (0.7 : ℚ) ≤ i.confidence :=
      fun i hi => mem_greedyFilter_conf _ _ _ hi
    have hpage_f : ∀ p, ((greedyFilter (fun _ => 0)
        (List.insertionSort ppLe (dedupByKey [] l))).filter
          (fun i => decide (i.page = p))).length ≤ 5 := by
      intro p
      have := greedyFilter_page_count
        (List.insertionSort ppLe (dedupByKey [] l)) (fun _ => 0) p
      simpa using this
    have hperm_cf := List.perm_insertionSort confGe
      (greedyFilter (fun _ => 0) (List.insertionSort ppLe (dedupByKey [] l)))
    have hg_sub := List.take_sublist 20 (List.insertionSort confGe
      (greedyFilter (fun _ => 0) (List.insertionSort ppLe (dedupByKey [] l))))
    have hres_perm := List.perm_insertionSort pageLe ((List.insertionSort confGe
      (greedyFilter (fun _ => 0) (List.insertionSort ppLe (dedupByKey [] l)))).take 20)
    refine ⟨?_, ?_, ?_, ?_, ?_⟩
    · exact (hres_perm.pairwise_iff ppKey_ne_symm).mpr
        ((hperm_cf.pairwise_iff ppKey_ne_symm).mpr hpw_f |>.sublist hg_sub)
    · apply insertionSort_pageLe_sorted_ppLe
      exact (List.sorted_insertionSort confGe _).sublist hg_sub
    · intro p
      calc ((List.insertionSort pageLe _).filter (fun i => decide (i.page = p))).length
          = (((List.insertionSort confGe _).take 20).filter
              (fun i => decide (i.page = p))).length :=
            (hres_perm.filter _).length_eq
        _ ≤ ((List.insertionSort confGe _).filter (fun i => decide (i.page = p))).length :=
            (hg_sub.filter _).length_le
        _ = ((greedyFilter (fun _ => 0) (List.insertionSort ppLe (dedupByKey [] l))).filter
              (fun i => decide (i.page = p))).length := (hperm_cf.filter _).length_eq
        _ ≤ 5 := hpage_f p
    · intro i hi
      exact hconf_f i (hperm_cf.subset (hg_sub.subset (hres_perm.subset hi)))
    · rw [hres_perm.length_eq]
      exact List.length_take_le 20 _
  · -- no truncation
    have hpw_u := dedupByKey_pairwise l []
    have hpw_s := ((List.perm_insertionSort ppLe _).pairwise_iff ppKey_ne_symm).mpr hpw_u
    have hf_sub := greedyFilter_sublist (List.insertionSort ppLe (dedupByKey [] l)) (fun _ => 0)
    refine ⟨hpw_s.sublist hf_sub, ?_, ?_, ?_, ?_⟩
    · exact (List.sorted_insertionSort ppLe _).sublist hf_sub
    · intro p
      have := greedyFilter_page_count
        (List.insertionSort ppLe (dedupByKey [] l)) (fun _ => 0) p
      simpa using this
    · exact fun i hi => mem_greedyFilter_conf _ _ _ hi
    · omega

theorem post_process_eq_of_good (l : List OutlineItem) (h : GoodOutline l) :
    post_process_outline l = l := by
  obtain ⟨hpw, hsort, hpage, hconf, hlen⟩ := h
  have h1 : dedupByKey [] l = l := dedupByKey_eq_self l [] (by simp) hpw
  have h2 : List.insertionSort ppLe l = l := List.Sorted.insertionSort_eq hsort
  have h3 : greedyFilter (fun _ => 0) l = l :=
    greedyFilter_eq_self l _ (by intro p; simpa using hpage p) hconf
  simp only [post_process_outline]
  rw [h1, h2, h3]
  split_ifs with hemp hbig
  · rfl
  · exact absurd hbig (by omega)
  · rfl

/-- C3: for every candidate list the post-processed outline has at most
twenty entries in all, at most five entries on any single page, no entry
with confidence below 0.7, and no two entries sharing the pair of lowercased
stripped text and page. -/
theorem c3_post_process_caps (outline : List OutlineItem) :
    (post_process_outline outline).length ≤ 20 ∧
      (∀ p, ((post_process_outline outline).filter
        (fun i => decide (i.page = p))).length ≤ 5) ∧
      (∀ i ∈ post_process_outline outline, (0.7 : ℚ) ≤ i.confidence) ∧
      (post_process_outline outline).Pairwise (fun a b => ppKey a ≠ ppKey b) := by
  obtain ⟨hpw, _, hpage, hconf, hlen⟩ := post_process_outline_good outline
  exact ⟨hlen, hpage, hconf, hpw⟩

/-- C8: outline post-processing is idempotent: applied to its own output,
with confidences still attached, it returns that output unchanged. -/
theorem c8_post_process_idempotent (l : List OutlineItem) :
    post_process_outline (post_process_outline l) = post_process_outline l :=
  post_process_eq_of_good _ (post_process_outline_good l)

/-- C5 (amended): every element of the document whose stripped text has
length at least two and whose heading score clears the 0.7 cutoff appears as
a heading candidate with its level, stripped text, page and confidence;
elements with shorter stripped text are skipped before the score is ever
consulted, so the cutoff is not the only condition deciding candidacy. -/
theorem c5_candidates_complete (elems : List TextElement) (stats : DocStats)
    (e : TextElement) (he : e ∈ elems) (hlen : 2 ≤ (pyStrip e.text).length)
    (hscore : (0.7 : ℚ) ≤ calculate_heading_score e stats) :
    (⟨determine_heading_level e stats.size_thresholds (pyStrip e.text), pyStrip e.text,
      e.page, calculate_heading_score e stats⟩ : OutlineItem)
      ∈ outlineCandidates elems stats := by
  unfold outlineCandidates
  apply List.mem_filterMap.mpr
  refine ⟨e, he, ?_⟩
  have hcond : ¬(((pyStrip e.text).isEmpty || decide ((pyStrip e.text).length < 2)) = true) := by
    simp only [Bool.or_eq_true, decide_eq_true_eq, List.isEmpty_iff]
    push_neg
    constructor
    · intro hnil
      rw [hnil] at hlen
      simp at hlen
    · omega
  dsimp only
  rw [if_neg hcond, if_pos hscore]

/-- C5 counterexample: in a three-element document whose dominant size is 12,
the bold one-letter element of size 24 scores 0.85, clearing the 0.7 cutoff,
yet the candidate list is empty, because its stripped text is shorter than
two characters; the cutoff is not the only condition deciding candidacy. -/
theorem c5_counterexample :
    (0.7 : ℚ) ≤ calculate_heading_score c5ex1 (analyze_document_statistics c5elems) ∧
      outlineCandidates c5elems (analyze_document_statistics c5elems) = [] := by
  constructor
  · have hdom : (analyze_document_statistics c5elems).dominant_size = 12 := by
      norm_num [analyze_document_statistics, c5elems, c5ex1, c5ex2, c5ex3, firstDedup,
        firstMode, List.insertionSort, List.orderedInsert, qGe, List.count_cons,
        List.count_nil, beq_iff_eq]
    have hstrip : pyStrip c5ex1.text = c5ex1.text := by decide
    have hwc : wordCount c5ex1.text = 1 := by decide
    have hm1 : matchMultiNum c5ex1.text = false := by decide
    have hm2 : matchNumDotSpace c5ex1.text = false := by decide
    have hm3 : matchLetterDotSpace c5ex1.text = false := by decide
    have hm4 : matchWordNum ("chapter").toList c5ex1.text = false := by decide
    have hm5 : matchWordNum ("section").toList c5ex1.text = false := by decide
    have hm6 : matchWordNum ("part").toList c5ex1.text = false := by decide
    have hm7 : startsWithCI ("appendix").toList c5ex1.text = false := by decide
    have hm8 : startsWithCI ("abstract").toList c5ex1.text = false := by decide
    have hm9 : startsWithCI ("introduction").toList c5ex1.text = false := by decide
    have hm10 : startsWithCI ("conclusion").toList c5ex1.text = false := by decide
    have he1 : endsWithCh c5ex1.text ':' = false := by decide
    have he2 : endsWithCh c5ex1.text '.' = false := by decide
    have hbold : c5ex1.is_bold = true := rfl
    have hsize : c5ex1.max_size = 24 := rfl
    rw [calculate_heading_score]
    simp only [hstrip, hwc, hbold, hsize, hdom]
    rw [headingPatternFactor]
    rw [headingCaseFactor]
    rw [headingLengthFactor]
    rw [headingPunctFactor]
    simp only [hm1, hm2, hm3, hm4, hm5, hm6, hm7, hm8, hm9, hm10, he1, he2]
    norm_num [headingSizeFactor, min_def]
  · decide

/-- C5 witness: the two-word numbered heading line of size 16 scores 0.8 and
appears as a candidate, instantiating the amended theorem concretely. -/
theorem c5_witness :
    (⟨determine_heading_level c5wex defStats.size_thresholds (pyStrip c5wex.text),
      pyStrip c5wex.text, c5wex.page, calculate_heading_score c5wex defStats⟩ : OutlineItem)
      ∈ outlineCandidates [c5wex] defStats := by
  have hscore : (0.7 : ℚ) ≤ calculate_heading_score c5wex defStats := by
    have hdom : defStats.dominant_size = 12 := rfl
    have hstrip : pyStrip c5wex.text = c5wex.text := by decide
    have hwc : wordCount c5wex.text = 2 := by decide
    have hm1 : matchMultiNum c5wex.text = false := by decide
    have hm2 : matchNumDotSpace c5wex.text = true := by decide
    have hu : pyIsUpper c5wex.text = false := by decide
    have ht : pyIsTitle c5wex.text = true := by decide
    have he1 : endsWithCh c5wex.text ':' = false := by decide
    have he2 : endsWithCh c5wex.text '.' = false := by decide
    have hbold : c5wex.is_bold = false := rfl
    have hsize : c5wex.max_size = 16 := rfl
    rw [calculate_heading_score]
    simp only [hstrip, hwc, hbold, hsize, hdom]
    rw [headingPatternFactor]
    rw [headingCaseFactor]
    rw [headingLengthFactor]
    rw [headingPunctFactor]
    simp only [hm1, hm2, hu, ht, he1, he2]
    norm_num [headingSizeFactor, min_def]
  exact c5_candidates_complete [c5wex] defStats c5wex (List.mem_singleton.mpr rfl)
    (by decide) hscore

theorem pySplitAux_ne_nil (s : List Char) :
    ∀ acc w : List Char, w ∈ pySplitAux acc s → w ≠ [] := by
  induction s with
  | nil =>
    intro acc w hw
    simp only [pySplitAux] at hw
    split_ifs at hw with h
    · simp at hw
    · rcases List.mem_singleton.mp hw with rfl
      intro he
      apply h
      rw [List.isEmpty_iff]
      exact List.reverse_eq_nil_iff.mp he
  | cons c rest ih =>
    intro acc w hw
    simp only [pySplitAux] at hw
    split_ifs at hw with h hg
    · rcases List.mem_append.mp hw with h1 | h2
      · simp at h1
      · exact ih [] w h2
    · rcases List.mem_append.mp hw with h1 | h2
      · rcases List.mem_singleton.mp h1 with rfl
        intro he
        apply hg
        rw [List.isEmpty_iff]
        exact List.reverse_eq_nil_iff.mp he
      · exact ih [] w h2
    · exact ih _ w hw

theorem joinSpace_cons_length (w : List Char) (ws : List (List Char)) :
    (joinSpace (w :: ws)).length ≤ w.length + 1 + (joinSpace ws).length := by
  cases ws with
  | nil =>
    simp [joinSpace]
  | cons v vs =>
    simp [joinSpace, List.length_append]
    omega

theorem joinSpace_pySplitAux_length (s : List Char) :
    ∀ acc : List Char, (joinSpace (pySplitAux acc s)).length ≤ acc.length + s.length := by
  induction s with
  | nil =>
    intro acc
    simp only [pySplitAux]
    split_ifs with h
    · simp [joinSpace]
    · simp [joinSpace]
  | cons c rest ih =>
    intro acc
    simp only [pySplitAux]
    split_ifs with h hg
    · have := ih []
      simp only [List.nil_append, List.length_cons]
      simp only [List.length_nil] at this
      omega
    · have h1 := joinSpace_cons_length acc.reverse (pySplitAux [] rest)
      have h2 := ih []
      simp only [List.singleton_append, List.length_cons, List.length_reverse] at h1 ⊢
      simp only [List.length_nil] at h2
      omega
    · have := ih (c :: acc)
      simp only [List.length_cons] at this ⊢
      omega

theorem joinSpace_dropLast_length (ws : List (List Char)) :
    2 ≤ ws.length → (∀ w ∈ ws, w ≠ []) →
      (joinSpace ws.dropLast).length + 2 ≤ (joinSpace ws).length := by
  induction ws with
  | nil =>
    intro h
    simp at h
  | cons w ws ih =>
    intro hlen hne
    cases ws with
    | nil => simp at hlen
    | cons v vs =>
      cases vs with
      | nil =>
        have hv : v ≠ [] := hne v (by simp)
        have : 1 ≤ v.length := List.length_pos.mpr hv
        simp [joinSpace, List.length_append]
        omega
      | cons u us =>
        have ih2 := ih (by simp) (fun x hx => hne x (List.mem_cons_of_mem _ hx))
        have e1 : joinSpace (w :: v :: u :: us) = w ++ ' ' :: joinSpace (v :: u :: us) := rfl
        have e2 : (w :: v :: u :: us).dropLast = w :: (v :: u :: us).dropLast := by
          simp [List.dropLast_cons₂]
        have e3 : joinSpace (w :: (v :: u :: us).dropLast)
            = w ++ ' ' :: joinSpace ((v :: u :: us).dropLast) := by
          rw [List.dropLast_cons₂]
          rfl
        rw [e1, e2, e3]
        simp only [List.length_append, List.length_cons]
        omega

theorem snd_mem_of_mem_enumFrom {α : Type} :
    ∀ (l : List α) (n : Nat) (p : Nat × α), p ∈ List.enumFrom n l → p.2 ∈ l := by
  intro l
  induction l with
  | nil =>
    intro n p hp
    simp at hp
  | cons a t ih =>
    intro n p hp
    simp only [List.enumFrom, List.mem_cons] at hp
    rcases hp with rfl | hp
    · exact List.mem_cons_self _ _
    · exact List.mem_cons_of_mem _ (ih _ _ hp)

/-- C6 (amended): title cleaning collapses whitespace and strips; a cleaned
text of at most 100 characters is returned as is when it has at least three
characters and replaced by the word Document otherwise; a longer text whose
first 100 characters hold more than one word is truncated to all but the
last of those words, leaving at most 99 characters; a longer text whose
first 100 characters hold a single word is returned untruncated and so can
exceed 100 characters; the extractor returns the word Document on an empty
element list and when no first-page element yields a valid candidate. -/
theorem c6_clean_title_spec (title : List Char) (elems : List TextElement)
    (stats : DocStats) :
    ((pyStrip (collapseRuns title)).length ≤ 100 →
      clean_title title = (if 3 ≤ (pyStrip (collapseRuns title)).length
        then pyStrip (collapseRuns title) else ("Document").toList)) ∧
    (100 < (pyStrip (collapseRuns title)).length →
      1 < (pySplit ((pyStrip (collapseRuns title)).take 100)).length →
      (clean_title title).length ≤ 99) ∧
    (100 < (pyStrip (collapseRuns title)).length →
      (pySplit ((pyStrip (collapseRuns title)).take 100)).length ≤ 1 →
      clean_title title = pyStrip (collapseRuns title)) ∧
    extract_document_title [] stats = ("Document").toList ∧
    ((∀ e ∈ elems, e.page = 0 → (pyStrip e.text).length < 3) →
      extract_document_title elems stats = ("Document").toList) := by
  refine ⟨?_, ?_, ?_, ?_, ?_⟩
  · intro hle
    simp only [clean_title]
    have hc : ¬ 100 < (pyStrip (collapseRuns title)).length := by omega
    rw [if_neg hc]
  · intro hgt hwords
    simp only [clean_title]
    rw [if_pos hgt, if_pos hwords]
    have htake : ((pyStrip (collapseRuns title)).take 100).length = 100 := by
      rw [List.length_take]
      omega
    have hjoin : (joinSpace (pySplit ((pyStrip (collapseRuns title)).take 100))).length
        ≤ 100 := by
      have := joinSpace_pySplitAux_length ((pyStrip (collapseRuns title)).take 100) []
      simp only [List.length_nil, Nat.zero_add] at this
      rw [htake] at this
      exact this
    have hdrop := joinSpace_dropLast_length
      (pySplit ((pyStrip (collapseRuns title)).take 100)) (by omega)
      (fun w hw => pySplitAux_ne_nil _ _ _ hw)
    split_ifs with h3
    · omega
    · simp
  · intro hgt hwords
    simp only [clean_title]
    have hc : ¬ 1 < (pySplit ((pyStrip (collapseRuns title)).take 100)).length := by omega
    rw [if_pos hgt, if_neg hc]
    rw [if_pos (show 3 ≤ (pyStrip (collapseRuns title)).length by omega)]
  · simp [extract_document_title]
  · intro hshort
    simp only [extract_document_title]
    split_ifs with hemp hcand
    · rfl
    · rfl
    · exfalso
      apply hcand
      rw [List.isEmpty_iff]
      rw [List.filterMap_eq_nil_iff]
      intro p hp
      have hmem : p.2 ∈ (elems.filter (fun e => e.page == 0)).take 15 :=
        snd_mem_of_mem_enumFrom _ _ _ (by simpa [List.enum] using hp)
      have hmem2 : p.2 ∈ elems.filter (fun e => e.page == 0) :=
        (List.take_sublist _ _).subset hmem
      have hfil := List.mem_filter.mp hmem2
      have hpage : p.2.page = 0 := by
        have := hfil.2
        simpa using this
      have hlen := hshort p.2 hfil.1 hpage
      show (if (pyStrip p.2.text).isEmpty || decide ((pyStrip p.2.text).length < 3) then
          none
        else some (titleTotalScore p.1 p.2 (pyStrip p.2.text) stats, pyStrip p.2.text))
          = none
      rw [if_pos]
      simp only [Bool.or_eq_true, decide_eq_true_eq]
      exact Or.inr hlen

set_option maxRecDepth 4000 in
/-- C6 counterexample: a document whose only first-page line is a single
150-character word yields a title of 150 characters, refuting that the
returned title never exceeds 100 characters: the truncation branch requires
more than one word in the first 100 characters and a single long word is
returned whole. -/
theorem c6_counterexample :
    100 < (extract_document_title [c6ex] defStats).length := by decide

set_option maxRecDepth 4000 in
/-- C6 witness: an over-long two-word title is truncated to under 100
characters, instantiating the amended theorem concretely. -/
theorem c6_witness : (clean_title c6wtitle).length ≤ 99 :=
  (c6_clean_title_spec c6wtitle [] defStats).2.1 (by decide) (by decide)

theorem firstDedup_nodup {α : Type} [DecidableEq α] : ∀ l : List α, (firstDedup l).Nodup := by
  intro l
  induction l with
  | nil => simp [firstDedup]
  | cons a t ih =>
    simp only [firstDedup]
    refine List.nodup_cons.mpr ⟨?_, ih.filter _⟩
    intro hmem
    have := List.mem_filter.mp hmem
    simp at this

theorem foldl_mode_mem (sizes : List ℚ) :
    ∀ (ds : List ℚ) (b : ℚ), b ∈ sizes → (∀ u ∈ ds, u ∈ sizes) →
      ds.foldl (fun b u => if sizes.count b < sizes.count u then u else b) b ∈ sizes := by
  intro ds
  induction ds with
  | nil =>
    intro b hb _
    exact hb
  | cons u us ih =>
    intro b hb hds
    simp only [List.foldl_cons]
    apply ih
    · split_ifs with h
      · exact hds u (List.mem_cons_self _ _)
      · exact hb
    · intro v hv
      exact hds v (List.mem_cons_of_mem _ hv)

theorem firstMode_mem (sizes : List ℚ) (h : sizes ≠ []) : firstMode sizes ∈ sizes := by
  unfold firstMode
  cases hd : firstDedup sizes with
  | nil =>
    exfalso
    cases sizes with
    | nil => exact h rfl
    | cons a t => simp [firstDedup] at hd
  | cons d ds =>
    apply foldl_mode_mem
    · have hm : d ∈ firstDedup sizes := by
        rw [hd]
        exact List.mem_cons_self _ _
      exact (mem_firstDedup _ _).mp hm
    · intro v hv
      have hm : v ∈ firstDedup sizes := by
        rw [hd]
        exact List.mem_cons_of_mem _ hv
      exact (mem_firstDedup _ _).mp hm

theorem sorted_nodup_top3 (u : List ℚ) (hs : u.Sorted qGe) (hn : u.Nodup)
    (hlen : 3 ≤ u.length) :
    (u.getD 0 0 ∈ u ∧ u.getD 1 0 ∈ u ∧ u.getD 2 0 ∈ u) ∧
      u.getD 1 0 < u.getD 0 0 ∧ u.getD 2 0 < u.getD 1 0 ∧
      (∀ s ∈ u, s ≤ u.getD 0 0) ∧
      (∀ s ∈ u, s ≠ u.getD 0 0 → s ≤ u.getD 1 0) ∧
      (∀ s ∈ u, s ≠ u.getD 0 0 → s ≠ u.getD 1 0 → s ≤ u.getD 2 0) := by
  cases u with
  | nil => simp at hlen
  | cons a u1 =>
    cases u1 with
    | nil => simp at hlen
    | cons b u2 =>
      cases u2 with
      | nil => simp at hlen
      | cons c t =>
        rcases List.sorted_cons.mp hs with ⟨ha, hs1⟩
        rcases List.sorted_cons.mp hs1 with ⟨hb, hs2⟩
        rcases List.sorted_cons.mp hs2 with ⟨hc, _⟩
        rcases List.nodup_cons.mp hn with ⟨hna, hn1⟩
        rcases List.nodup_cons.mp hn1 with ⟨hnb, hn2⟩
        rcases List.nodup_cons.mp hn2 with ⟨hnc, _⟩
        simp only [List.getD_cons_zero, List.getD_cons_succ]
        have hba : b ≤ a := ha b (List.mem_cons_self _ _)
        have hcb : c ≤ b := hb c (List.mem_cons_self _ _)
        have hbne : b ≠ a := by
          intro he
          exact hna (he ▸ List.mem_cons_self _ _)
        have hcne : c ≠ b := by
          intro he
          exact hnb (he ▸ List.mem_cons_self _ _)
        refine ⟨⟨List.mem_cons_self _ _, List.mem_cons_of_mem _ (List.mem_cons_self _ _),
          List.mem_cons_of_mem _ (List.mem_cons_of_mem _ (List.mem_cons_self _ _))⟩,
          lt_of_le_of_ne hba hbne, lt_of_le_of_ne hcb hcne, ?_, ?_, ?_⟩
        · intro s hsm
          rcases List.mem_cons.mp hsm with rfl | hsm
          · exact le_refl s
          · exact ha s hsm
        · intro s hsm hne1
          rcases List.mem_cons.mp hsm with rfl | hsm
          · exact absurd rfl hne1
          · rcases List.mem_cons.mp hsm with rfl | hsm
            · exact le_refl s
            · exact hb s hsm
        · intro s hsm hne1 hne2
          rcases List.mem_cons.mp hsm with rfl | hsm
          · exact absurd rfl hne1
          · rcases List.mem_cons.mp hsm with rfl | hsm
            · exact absurd rfl hne2
            · rcases List.mem_cons.mp hsm with rfl | hsm
              · exact le_refl s
              · exact hc s hsm

theorem analyze_eq_branch1 (elems : List TextElement) (he : elems ≠ [])
    (h3 : 3 ≤ (firstDedup (elems.map (fun e => e.max_size))).length) :
    analyze_document_statistics elems =
      ⟨firstMode (elems.map (fun e => e.max_size)),
        ⟨(List.insertionSort qGe (firstDedup (elems.map (fun e => e.max_size)))).getD 0 0,
          (List.insertionSort qGe (firstDedup (elems.map (fun e => e.max_size)))).getD 1 0,
          (List.insertionSort qGe (firstDedup (elems.map (fun e => e.max_size)))).getD 2 0⟩⟩ := by
  simp only [analyze_document_statistics]
  rw [if_neg (by simpa [List.isEmpty_iff] using he)]
  rw [if_pos (by rw [List.length_insertionSort]; exact h3)]
  rw [if_pos (by rw [List.length_insertionSort]; omega)]
  rw [if_pos (by rw [List.length_insertionSort]; omega)]

theorem analyze_eq_branch2 (elems : List TextElement) (he : elems ≠ [])
    (h3 : (firstDedup (elems.map (fun e => e.max_size))).length < 3) :
    analyze_document_statistics elems =
      ⟨firstMode (elems.map (fun e => e.max_size)),
        ⟨max (firstMode (elems.map (fun e => e.max_size)) * 1.5)
            (pyMax (elems.map (fun e => e.max_size)) * 0.9),
          firstMode (elems.map (fun e => e.max_size)) * 1.3,
          firstMode (elems.map (fun e => e.max_size)) * 1.1⟩⟩ := by
  simp only [analyze_document_statistics]
  rw [if_neg (by simpa [List.isEmpty_iff] using he)]
  rw [if_neg (by rw [List.length_insertionSort]; omega)]

theorem firstMode_nonneg (elems : List TextElement) (he : elems ≠ [])
    (hpos : ∀ e ∈ elems, (0 : ℚ) ≤ e.max_size) :
    0 ≤ firstMode (elems.map (fun e => e.max_size)) := by
  have hne : elems.map (fun e => e.max_size) ≠ [] := by
    simpa using he
  have hm := firstMode_mem (elems.map (fun e => e.max_size)) hne
  rcases List.mem_map.mp hm with ⟨e, hemem, heq⟩
  rw [← heq]
  exact hpos e hemem

/-- C7 (amended): for every element list whose max font sizes are all
nonnegative, the thresholds are ordered h1 at least h2 at least h3; the
empty list yields the defaults 18, 15, 13; with at least three distinct
max sizes the thresholds are the three largest distinct sizes, strictly
ordered and dominating every other size; with fewer distinct sizes h1 is
the larger of dominant times 1.5 and max size times 0.9, h2 is dominant
times 1.3 and h3 is dominant times 1.1.  With a negative dominant size the
ordering genuinely fails, which forces the nonnegativity restriction. -/
theorem c7_thresholds (elems : List TextElement)
    (hpos : ∀ e ∈ elems, (0 : ℚ) ≤ e.max_size) :
    ((analyze_document_statistics elems).size_thresholds.h2
        ≤ (analyze_document_statistics elems).size_thresholds.h1 ∧
      (analyze_document_statistics elems).size_thresholds.h3
        ≤ (analyze_document_statistics elems).size_thresholds.h2) ∧
      (elems = [] → analyze_document_statistics elems = ⟨12, ⟨18, 15, 13⟩⟩) ∧
      (elems ≠ [] → 3 ≤ (firstDedup (elems.map (fun e => e.max_size))).length →
        ((analyze_document_statistics elems).size_thresholds.h1
            ∈ elems.map (fun e => e.max_size) ∧
          (analyze_document_statistics elems).size_thresholds.h2
            ∈ elems.map (fun e => e.max_size) ∧
          (analyze_document_statistics elems).size_thresholds.h3
            ∈ elems.map (fun e => e.max_size) ∧
          (analyze_document_statistics elems).size_thresholds.h2
            < (analyze_document_statistics elems).size_thresholds.h1 ∧
          (analyze_document_statistics elems).size_thresholds.h3
            < (analyze_document_statistics elems).size_thresholds.h2 ∧
          ∀ s ∈ elems.map (fun e => e.max_size),
            s ≤ (analyze_document_statistics elems).size_thresholds.h1 ∧
              (s ≠ (analyze_document_statistics elems).size_thresholds.h1 →
                s ≤ (analyze_document_statistics elems).size_thresholds.h2) ∧
              (s ≠ (analyze_document_statistics elems).size_thresholds.h1 →
                s ≠ (analyze_document_statistics elems).size_thresholds.h2 →
                s ≤ (analyze_document_statistics elems).size_thresholds.h3))) ∧
      (elems ≠ [] → (firstDedup (elems.map (fun e => e.max_size))).length < 3 →
        analyze_document_statistics elems =
          ⟨firstMode (elems.map (fun e => e.max_size)),
            ⟨max (firstMode (elems.map (fun e => e.max_size)) * 1.5)
                (pyMax (elems.map (fun e => e.max_size)) * 0.9),
              firstMode (elems.map (fun e => e.max_size)) * 1.3,
              firstMode (elems.map (fun e => e.max_size)) * 1.1⟩⟩) := by
  have hbranch1 : elems ≠ [] → 3 ≤ (firstDedup (elems.map (fun e => e.max_size))).length →
      ((analyze_document_statistics elems).size_thresholds.h1
          ∈ elems.map (fun e => e.max_size) ∧
        (analyze_document_statistics elems).size_thresholds.h2
          ∈ elems.map (fun e => e.max_size) ∧
        (analyze_document_statistics elems).size_thresholds.h3
          ∈ elems.map (fun e => e.max_size) ∧
        (analyze_document_statistics elems).size_thresholds.h2
          < (analyze_document_statistics elems).size_thresholds.h1 ∧
        (analyze_document_statistics elems).size_thresholds.h3
          < (analyze_document_statistics elems).size_thresholds.h2 ∧
        ∀ s ∈ elems.map (fun e => e.max_size),
          s ≤ (analyze_document_statistics elems).size_thresholds.h1 ∧
            (s ≠ (analyze_document_statistics elems).size_thresholds.h1 →
              s ≤ (analyze_document_statistics elems).size_thresholds.h2) ∧
            (s ≠ (analyze_document_statistics elems).size_thresholds.h1 →
              s ≠ (analyze_document_statistics elems).size_thresholds.h2 →
              s ≤ (analyze_document_statistics elems).size_thresholds.h3)) := by
    intro he h3
    rw [analyze_eq_branch1 elems he h3]
    have hsorted := List.sorted_insertionSort qGe (firstDedup (elems.map (fun e => e.max_size)))
    have hnodup := (List.perm_insertionSort qGe
      (firstDedup (elems.map (fun e => e.max_size)))).nodup_iff.mpr
      (firstDedup_nodup (elems.map (fun e => e.max_size)))
    have hulen : 3 ≤ (List.insertionSort qGe
        (firstDedup (elems.map (fun e => e.max_size)))).length := by
      rw [List.length_insertionSort]
      exact h3
    obtain ⟨⟨hm0, hm1, hm2⟩, o1, o2, otop, osec, othr⟩ :=
      sorted_nodup_top3 _ hsorted hnodup hulen
    have humem : ∀ s : ℚ, s ∈ List.insertionSort qGe
        (firstDedup (elems.map (fun e => e.max_size)))
          ↔ s ∈ elems.map (fun e => e.max_size) := by
      intro s
      rw [List.mem_insertionSort, mem_firstDedup]
    exact ⟨(humem _).mp hm0, (humem _).mp hm1, (humem _).mp hm2, o1, o2,
      fun s hs => ⟨otop s ((humem s).mpr hs), fun hne1 => osec s ((humem s).mpr hs) hne1,
        fun hne1 hne2 => othr s ((humem s).mpr hs) hne1 hne2⟩⟩
  refine ⟨?_, ?_, hbranch1, ?_⟩
  · by_cases he : elems = []
    · subst he
      exact (by norm_num : ((15 : ℚ) ≤ 18 ∧ (13 : ℚ) ≤ 15))
    · by_cases h3 : 3 ≤ (firstDedup (elems.map (fun e => e.max_size))).length
      · obtain ⟨_, _, _, o1, o2, _⟩ := hbranch1 he h3
        exact ⟨le_of_lt o1, le_of_lt o2⟩
      · rw [analyze_eq_branch2 elems he (by omega)]
        have hdom := firstMode_nonneg elems he hpos
        constructor
        · refine le_trans ?_ (le_max_left _ _)
          exact mul_le_mul_of_nonneg_left (by norm_num) hdom
        · exact mul_le_mul_of_nonneg_left (by norm_num) hdom
  · intro he
    subst he
    rfl
  · intro he h3
    exact analyze_eq_branch2 elems he h3

/-- C7 counterexample: a single element of max size -10 puts h2 strictly
below h3, refuting the unrestricted ordering claim and forcing the
nonnegative-size restriction of the amended claim. -/
theorem c7_counterexample :
    (analyze_document_statistics [c7ex]).size_thresholds.h2
      < (analyze_document_statistics [c7ex]).size_thresholds.h3 := by
  rw [analyze_eq_branch2 [c7ex] (by simp) (by decide)]
  have hm : firstMode ([c7ex].map (fun e => e.max_size)) = -10 := rfl
  show firstMode ([c7ex].map (fun e => e.max_size)) * 1.3
    < firstMode ([c7ex].map (fun e => e.max_size)) * 1.1
  rw [hm]
  norm_num

/-- C7 witness: a four-element document with three distinct nonnegative sizes
instantiates the ordering of the amended theorem concretely. -/
theorem c7_witness :
    (analyze_document_statistics c7welems).size_thresholds.h2
        ≤ (analyze_document_statistics c7welems).size_thresholds.h1 ∧
      (analyze_document_statistics c7welems).size_thresholds.h3
        ≤ (analyze_document_statistics c7welems).size_thresholds.h2 :=
  (c7_thresholds c7welems (by decide)).1

/-- C3 witness: a concrete one-entry outline passes post-processing intact
and its entry clears the confidence bound, instantiating the theorem. -/
theorem c3_witness :
    (⟨"H1", ("Intro").toList, 0, 1⟩ : OutlineItem) ∈ post_process_outline c3wlist ∧
      (0.7 : ℚ) ≤ (⟨"H1", ("Intro").toList, 0, 1⟩ : OutlineItem).confidence := by
  have hgood : GoodOutline c3wlist := by
    refine ⟨by simp [c3wlist], by simp [c3wlist], ?_, ?_, by simp [c3wlist]⟩
    · intro p
      exact le_trans (List.length_filter_le _ _) (by simp [c3wlist])
    · intro i hi
      simp only [c3wlist, List.mem_singleton] at hi
      subst hi
      norm_num
  have heq := post_process_eq_of_good c3wlist hgood
  have hmem : (⟨"H1", ("Intro").toList, 0, 1⟩ : OutlineItem) ∈ post_process_outline c3wlist := by
    rw [heq]
    simp [c3wlist]
  exact ⟨hmem, (c3_post_process_caps c3wlist).2.2.1 _ hmem⟩

/-- C4 witness: a single high-scoring section is selected with rank one and
clears the minimum-score bound, instantiating the theorem. -/
theorem c4_witness :
    (c4wsec, 1) ∈ rank_and_select [c4wsec] ∧ (0.3 : ℚ) ≤ c4wsec.relevance_score := by
  have hsel : selectLoop (fun _ => 0) 0 [c4wsec] = [c4wsec] := by
    simp only [selectLoop]
    rw [if_neg (by norm_num), if_neg (by norm_num [c4wsec]), if_neg (by norm_num)]
  have hr : rank_and_select [c4wsec] = [(c4wsec, 1)] := by
    simp only [rank_and_select]
    rw [if_neg (by simp)]
    have hsort : List.insertionSort scoreGe [c4wsec] = [c4wsec] := rfl
    rw [hsort, hsel]
    rfl
  have hmem : (c4wsec, 1) ∈ rank_and_select [c4wsec] := by
    rw [hr]
    simp
  have hsc := (c4_rank_and_select [c4wsec]).2.2.1 (c4wsec, 1) hmem
  exact ⟨hmem, hsc⟩
